import Mathlib

/-!
Shallow embedding of the cryptobot Discord bot (src/main.go).

Modelling conventions:
* Go strings are `List Char` (all relevant text is ASCII).
* Go `uint64` values are `Nat`; the one place the code can overflow
  (`totalSupply += amount`) is modelled with an explicit `% 2^64`.
* Go `float64` arithmetic is modelled over `ℚ` extended with the IEEE
  special values that the program can actually produce from nonnegative
  inputs: `GoF.nan` (0/0) and `GoF.inf` (x/0 for x > 0).  Finite
  arithmetic is modelled exactly (rationals), which is faithful for the
  divisions, sums and comparisons the claims are about.
* Fallible operations (slice indexing that can panic, `strconv.ParseUint`)
  return `Option`; `none` models a panic / error.
-/

namespace Cryptobot

/-- Model of Go float64 values reachable in this program: finite values
(exact rationals), positive infinity, and NaN. -/
inductive GoF where
  | nan : GoF
  | inf : GoF
  | val : ℚ → GoF
deriving DecidableEq

/-- Division `float64(a) / float64(b)` for nonnegative integer-derived
operands: 0/0 is NaN, x/0 (x ≠ 0) is +Inf, otherwise exact. -/
def goDivQ (a b : ℚ) : GoF :=
  if b = 0 then (if a = 0 then GoF.nan else GoF.inf) else GoF.val (a / b)

/-- Multiplication of a float by the positive literal 100. -/
def GoF.mul100 : GoF → GoF
  | GoF.nan => GoF.nan
  | GoF.inf => GoF.inf
  | GoF.val q => GoF.val (q * 100)

/-- Float addition (no negative infinities arise in this program). -/
def GoF.add : GoF → GoF → GoF
  | GoF.nan, _ => GoF.nan
  | _, GoF.nan => GoF.nan
  | GoF.inf, _ => GoF.inf
  | GoF.val _, GoF.inf => GoF.inf
  | GoF.val a, GoF.val b => GoF.val (a + b)

/-- Comparison `f > c` against a finite constant; false for NaN. -/
def GoF.gtC (f : GoF) (c : ℚ) : Bool :=
  match f with
  | GoF.nan => false
  | GoF.inf => true
  | GoF.val q => decide (c < q)

/-- Comparison `f < c` against a finite constant; false for NaN. -/
def GoF.ltC (f : GoF) (c : ℚ) : Bool :=
  match f with
  | GoF.nan => false
  | GoF.inf => false
  | GoF.val q => decide (q < c)

/-- Comparison `f <= c` against a finite constant; false for NaN and +Inf. -/
def GoF.leC (f : GoF) (c : ℚ) : Bool :=
  match f with
  | GoF.nan => false
  | GoF.inf => false
  | GoF.val q => decide (q ≤ c)

/-! ## Address validation (`validateSolanaAddress`, src/main.go:228) -/

/-- The literal `validChars` string of `validateSolanaAddress`. -/
def validChars : List Char :=
  "123456789ABCDEFGHJKLMNPQRSTUVWXYZabcdefghijkmnopqrstuvwxyz".toList

/-- Embedding of `validateSolanaAddress`: length in [32,44] and every
character drawn from `validChars`. -/
def validateSolanaAddress (address : List Char) : Bool :=
  if address.length < 32 || address.length > 44 then false
  else address.all (fun c => validChars.contains c)

/-! ## Bare-address scanning (`solanaAddressPattern`, src/main.go:70)

The pattern is the plain character-class repetition
`[1-9A-HJ-NP-Za-km-z]{32,44}`.  `regexp.FindAllString(s, -1)` returns the
successive leftmost, non-overlapping matches; for this pattern a match at
a position is the greedy take of at most 44 characters from the maximal
base58 run starting there, accepted when the run is at least 32 long. -/

/-- Character class `[1-9A-HJ-NP-Za-km-z]` of the address pattern. -/
def isBase58 (c : Char) : Bool :=
  ('1' ≤ c && c ≤ '9') || ('A' ≤ c && c ≤ 'H') || ('J' ≤ c && c ≤ 'N') ||
  ('P' ≤ c && c ≤ 'Z') || ('a' ≤ c && c ≤ 'k') || ('m' ≤ c && c ≤ 'z')

/-- Length of the maximal run of pattern characters at the head of `l`. -/
def runLen : List Char → Nat
  | [] => 0
  | c :: rest => if isBase58 c then runLen rest + 1 else 0

/-- Scanning loop of `FindAllString`, with fuel bounding the number of
characters still considered (each step consumes at least one character,
so `fuel = length of the text` makes the fuel irrelevant). -/
def findAllAux : Nat → List Char → List (List Char)
  | 0, _ => []
  | _, [] => []
  | fuel + 1, c :: rest =>
    if 32 ≤ runLen (c :: rest) then
      (c :: rest).take (min (runLen (c :: rest)) 44) ::
        findAllAux fuel ((c :: rest).drop (min (runLen (c :: rest)) 44))
    else
      findAllAux fuel rest

/-- Embedding of `solanaAddressPattern.FindAllString(s, -1)`: successive
leftmost non-overlapping greedy matches of the 32–44 length run pattern. -/
def findAllMatches (s : List Char) : List (List Char) :=
  findAllAux s.length s

/-- First-occurrence deduplication with a seen-set, mirroring the
`processed` map loop of `messageCreate` (src/main.go:137). -/
def dedupFirstAux (seen : List (List Char)) : List (List Char) → List (List Char)
  | [] => []
  | a :: rest =>
    if a ∈ seen then dedupFirstAux seen rest
    else a :: dedupFirstAux (a :: seen) rest

/-- Deduplication keeping first occurrences, in order. -/
def dedupFirst (l : List (List Char)) : List (List Char) :=
  dedupFirstAux [] l

/-! ## Explorer-URL extraction (`explorers`, src/main.go:51) -/

/-- Does `pre` occur literally at the head of `s`?  If so, return the rest. -/
def dropLead : List Char → List Char → Option (List Char)
  | [], s => some s
  | _ :: _, [] => none
  | p :: ps, c :: cs => if p = c then dropLead ps cs else none

/-- Embedding of `FindStringSubmatch` for an explorer pattern
`LITERAL([1-9A-HJ-NP-Za-km-z]{32,44})`: the capture of the leftmost match,
i.e. at the earliest position where the literal occurs followed by a run
of at least 32 pattern characters, the greedy take of at most 44 of them. -/
def findURLCapture (pre : List Char) : List Char → Option (List Char)
  | [] =>
    match dropLead pre [] with
    | some after => if 32 ≤ runLen after then some (after.take (min (runLen after) 44)) else none
    | none => none
  | c :: rest =>
    match dropLead pre (c :: rest) with
    | some after =>
      if 32 ≤ runLen after then some (after.take (min (runLen after) 44))
      else findURLCapture pre rest
    | none => findURLCapture pre rest

/-- The three explorer URL literals preceding the address capture group. -/
def explorerLeads : List (List Char) :=
  ["solscan.io/account/".toList,
   "bullx.io/terminal?chainId=1399811149&address=".toList,
   "photon-sol.tinyastro.io/en/lp/".toList]

/-- The URL branch of `messageCreate`: explorers are tried in order; the
first captured address that validates is handled and the loop breaks; a
capture that fails validation moves on to the next explorer. -/
def urlExtract (s : List Char) : Option (List Char) :=
  go explorerLeads
where
  go : List (List Char) → Option (List Char)
    | [] => none
    | pre :: rest =>
      match findURLCapture pre s with
      | some a => if validateSolanaAddress a then some a else go rest
      | none => go rest

/-- Embedding of the address-extraction pipeline of `messageCreate`
(src/main.go:115): URL-embedded addresses take priority; otherwise all
bare matches are deduplicated by first occurrence and validated. -/
def extract (s : List Char) : List (List Char) :=
  match urlExtract s with
  | some a => [a]
  | none => (dedupFirst (findAllMatches s)).filter validateSolanaAddress

/-! ## Token analysis (`analyzeToken`, src/main.go:243) -/

/-- A holder record: address, raw `uint64` amount, float percent.
The percent field is zero-initialised, as the Go struct's zero value. -/
structure TokenHolder where
  address : List Char
  amount : Nat
  percent : GoF
deriving DecidableEq

/-- The aggregate analysis record built by `analyzeToken`. -/
structure TokenAnalysis where
  totalSupply : Nat
  decimals : Nat
  holderCount : Nat
  topHolders : List TokenHolder
  insiderPercent : GoF
  bundlingScore : ℚ
  suspiciousFlags : List String
deriving DecidableEq

/-- Embedding of `strconv.ParseUint(s, 10, 64)`: nonempty all-digit
strings whose value fits in a `uint64`; no signs, no other characters. -/
def parseUint64 (s : List Char) : Option Nat :=
  if s.isEmpty then none
  else if s.all (fun c => c.isDigit) then
    let v := s.foldl (fun acc c => acc * 10 + (c.toNat - '0'.toNat)) 0
    if v < 2 ^ 64 then some v else none
  else none

/-- One raw largest-accounts entry as returned by the RPC: the holder
address and the amount in its base-10 string form. -/
structure RawHolder where
  address : List Char
  amountText : List Char
deriving DecidableEq

/-- The parse loop of `analyzeToken` (src/main.go:282): entries whose
amount fails to parse are skipped, the rest become holders in order. -/
def holdersOf (entries : List RawHolder) : List TokenHolder :=
  entries.filterMap (fun e =>
    (parseUint64 e.amountText).map (fun a => TokenHolder.mk e.address a (GoF.val 0)))

/-- The running `totalSupply += amount` of the same loop; the sum wraps
modulo 2^64 as Go `uint64` addition does. -/
def totalSupplyOf (entries : List RawHolder) : Nat :=
  (holdersOf entries).foldl (fun t h => (t + h.amount) % 2 ^ 64) 0

/-- The percent loop (src/main.go:299):
`Percent = float64(Amount) / float64(totalSupply) * 100`. -/
def withPercents (holders : List TokenHolder) (total : Nat) : List TokenHolder :=
  holders.map (fun h =>
    { h with percent := (goDivQ (h.amount : ℚ) (total : ℚ)).mul100 })

/-- Sum of the percent fields of a holder list (float addition from 0). -/
def percentSum (holders : List TokenHolder) : GoF :=
  holders.foldl (fun acc h => acc.add h.percent) (GoF.val 0)

/-- Insertion of a holder into a descending-by-amount list.  `sort.Slice`
is called with `holders[i].Amount > holders[j].Amount`; its tie order is
not specified by Go (the sort is not stable), so the tie order produced
here is a modelling choice, not a property of the source. -/
def insertDesc (h : TokenHolder) : List TokenHolder → List TokenHolder
  | [] => [h]
  | x :: xs => if x.amount < h.amount then h :: x :: xs else x :: insertDesc h xs

/-- Descending sort by amount standing in for the `sort.Slice` call
(src/main.go:303); see `insertDesc` on ties. -/
def sortHoldersDesc (holders : List TokenHolder) : List TokenHolder :=
  holders.foldl (fun acc h => insertDesc h acc) []

/-- The insider loop (src/main.go:309): sum of the percents of the first
`min 5 (length)` sorted holders, as float addition starting from 0. -/
def insiderPercentOf (sorted : List TokenHolder) : GoF :=
  (sorted.take 5).foldl (fun acc h => acc.add h.percent) (GoF.val 0)

/-- The loop body of `calculateBundlingScore` (src/main.go:387): indices
`i` with `i < len(holders) && i < 10`, each access modelled fallibly so an
out-of-range index would surface as `none`. -/
def bundlingLoop (holders : List TokenHolder) (h0amt : Nat) :
    Nat → Nat → ℚ → Option ℚ
  | 0, _, acc => some acc
  | left + 1, i, acc =>
    if i < holders.length then
      match holders[i]? with
      | none => none
      | some h =>
        let ratio := goDivQ (h.amount : ℚ) (h0amt : ℚ)
        bundlingLoop holders h0amt left (i + 1)
          (if ratio.gtC 0.8 && ratio.ltC 1.2 then acc + 0.1 else acc)
    else some acc

/-- Embedding of `calculateBundlingScore` (src/main.go:376): 0 for fewer
than two holders, otherwise 0.1 per holder at index 1..9 whose ratio to
the largest holder lies strictly inside (0.8, 1.2).  The `i < 10` bound
of the loop is carried as the remaining-iteration count 9 starting at
index 1. -/
def calculateBundlingScore (holders : List TokenHolder) : Option ℚ :=
  if holders.length < 2 then some 0
  else
    match holders[0]? with
    | none => none
    | some h0 => bundlingLoop holders h0.amount 9 1 0

/-- The decimals parse of `analyzeToken` (src/main.go:258): if the mint
account data is absent, decimals = 0; if present and at least 44 bytes
long the code reads `mintData[44]`, which is modelled fallibly (`none`
models the index-out-of-range panic); shorter data gives decimals = 0. -/
def decimalsOf (mintData : Option (List Nat)) : Option Nat :=
  match mintData with
  | none => some 0
  | some d => if 44 ≤ d.length then d[44]? else some 0

/-- The suspicious-flag appends of `analyzeToken` (src/main.go:322). -/
def flagsOf (insider : GoF) (score : ℚ) : List String :=
  (if insider.gtC 50 then ["High insider ownership"] else []) ++
  (if decide ((0.7 : ℚ) < score) then ["Possible bundling detected"] else [])

/-- Embedding of `analyzeToken` after its two RPC fetches: takes the
fetched mint-account bytes (or `none` when account/value/data is absent)
and the raw largest-accounts entries, and builds the `TokenAnalysis`.
`none` models a runtime panic (only reachable through `decimalsOf`). -/
def analyzeToken (mintData : Option (List Nat)) (entries : List RawHolder) :
    Option TokenAnalysis :=
  match decimalsOf mintData with
  | none => none
  | some decimals =>
    let holders := withPercents (holdersOf entries) (totalSupplyOf entries)
    let sorted := sortHoldersDesc holders
    let insider := insiderPercentOf sorted
    match calculateBundlingScore sorted with
    | none => none
    | some score =>
      some { totalSupply := totalSupplyOf entries
             decimals := decimals
             holderCount := sorted.length
             topHolders := sorted.take (min 5 sorted.length)
             insiderPercent := insider
             bundlingScore := score
             suspiciousFlags := flagsOf insider score }

/-! ## Account classification (`handleAddress`, src/main.go:168) -/

/-- The fetched account state used by `handleAddress`. -/
structure AccountSnapshot where
  executable : Bool
  lamports : Nat
  data : List Nat
deriving DecidableEq

/-- The three reply shapes `handleAddress` can choose. -/
inductive Classified where
  | tokenMint : TokenAnalysis → Classified
  | contract : Classified
  | wallet : ℚ → Classified
deriving DecidableEq

/-- Embedding of the classification logic of `handleAddress`: the token
embed is sent when the account data is non-empty and `analyzeToken`
succeeded; otherwise the executable flag alone picks contract vs wallet,
the wallet balance being `lamports / 1e9`. -/
def classifyAccount (acc : AccountSnapshot) (analysis : Option TokenAnalysis) :
    Classified :=
  if h : acc.data.length > 0 ∧ analysis.isSome then
    Classified.tokenMint (analysis.get h.2)
  else if acc.executable then Classified.contract
  else Classified.wallet ((acc.lamports : ℚ) / 1000000000)

/-! ## Display formatting (`formatTokenAmount`, src/main.go:332) -/

/-- Embedding of `strings.TrimRight(s, string(c))`: remove every trailing
occurrence of `c`. -/
def trimRightChar (c : Char) (s : List Char) : List Char :=
  ((s.reverse).dropWhile (fun x => x = c)).reverse

/-- The comma loop of `formatNumber` (src/main.go:485): it walks the
digits from the right inserting a comma after every third digit copied;
equivalently, on the reversed digit list, a comma after every chunk of 3. -/
def commaRev : List Char → List Char
  | a :: b :: c :: d :: rest => a :: b :: c :: ',' :: commaRev (d :: rest)
  | l => l

/-- Embedding of `formatNumber` (src/main.go:471): decimal digits of `n`
grouped with a comma every three digits from the right (the `n < 0`
branches of the Go code are dead for `uint64`). -/
def formatNumber (n : Nat) : List Char :=
  (commaRev (toString n).toList.reverse).reverse

/-- The stepping loop of `addCommas` (src/main.go:366): appends
`"," + s[i:i+3]` for each remaining chunk of exactly 3. -/
def addCommasLoop : List Char → Option (List Char)
  | [] => some []
  | a :: b :: c :: rest => (addCommasLoop rest).map (fun t => ',' :: a :: b :: c :: t)
  | _ => none

/-- Embedding of `addCommas` (src/main.go:360): `start := len(s) % 3`
(3 when that is 0), head slice `s[:start]`, then comma-separated chunks
of 3.  On the empty string the Go slice `s[:3]` panics, modelled `none`
(as is the dead slice `s[i:i+3]` past the end, which the `start` choice
makes unreachable). -/
def addCommas (s : List Char) : Option (List Char) :=
  let start := if s.length % 3 = 0 then 3 else s.length % 3
  if s.length < start then none
  else (addCommasLoop (s.drop start)).map (fun t => s.take start ++ t)

/-- Embedding of `formatTokenAmount` (src/main.go:332): fixed-point
rendering of `amount` with `decimals` fractional digits — zero left-pad,
decimal point insertion, trailing-zero and trailing-point trim, comma
grouping of the integer part.  `none` models the (unreachable)
`addCommas` panic on an empty integer part. -/
def formatTokenAmount (amount : Nat) (decimals : Nat) : Option (List Char) :=
  if decimals = 0 then some (formatNumber amount)
  else
    let full0 := (toString amount).toList
    let full := if full0.length ≤ decimals
      then List.replicate (decimals - full0.length + 1) '0' ++ full0
      else full0
    let decimalPoint := full.length - decimals
    let result0 := full.take decimalPoint ++ '.' :: full.drop decimalPoint
    let result := trimRightChar '.' (trimRightChar '0' result0)
    match result.splitOn '.' with
    | [] => none
    | p0 :: rest =>
      match addCommas p0 with
      | none => none
      | some grouped =>
        match rest with
        | [] => some grouped
        | p1 :: _ => some (grouped ++ '.' :: p1)

/-! ## Claim theorems -/

/-- C1: the guard `len(mintData) >= 44` does not make the read
`mintData[44]` safe: on mint data of exactly 44 bytes the read indexes
out of bounds (modelled `none`), contradicting the claim that decimals
is read only when the data is at least 45 bytes long and that otherwise
decimals = 0 without any out-of-bounds access.  Data of at least 45
bytes does give the byte at offset 44, and absent or short data gives 0,
as the claim says. -/
theorem decimalsOf_panics_at_exactly_44 :
    decimalsOf (some (List.replicate 44 0)) = none ∧
    decimalsOf (some (List.replicate 45 9)) = some 9 ∧
    decimalsOf (some (List.replicate 43 1)) = some 0 ∧
    decimalsOf none = some 0 := by decide

/-- C2: with a holder list whose sampled total supply is 0 but which
still contains a holder (amount string "0" parses to 0), the percent
computation divides 0 by 0, producing NaN — not the 0% required by the
claim. -/
theorem percent_nan_on_zero_total :
    withPercents (holdersOf [RawHolder.mk ['a'] ['0']])
        (totalSupplyOf [RawHolder.mk ['a'] ['0']])
      = [TokenHolder.mk ['a'] 0 GoF.nan] ∧
    GoF.nan ≠ GoF.val 0 := by decide

/-- C3 counterexample: an account with non-empty data, not executable,
whose token analysis failed, is classified as a Wallet, not as a
Contract as the claim states. -/
theorem classify_fallback_cex :
    classifyAccount (AccountSnapshot.mk false 5 [1]) none ≠ Classified.contract ∧
    classifyAccount (AccountSnapshot.mk false 5 [1]) none
      = Classified.wallet (((5 : Nat) : ℚ) / 1000000000) := by
  refine ⟨?_, rfl⟩
  simp [classifyAccount]

/-- C3 amended: for every account with non-empty data, not flagged
executable, whose token analysis fails, `handleAddress` falls back to
the Wallet reply (balance = lamports / 1e9): the fallback inspects only
the executable flag, so such accounts are never shown as Contract. -/
theorem classify_data_nonexec_fallback_wallet (acc : AccountSnapshot)
    (_hdata : acc.data ≠ []) (hexec : acc.executable = false) :
    classifyAccount acc none = Classified.wallet ((acc.lamports : ℚ) / 1000000000) := by
  simp [classifyAccount, hexec]

/-- C3 witness: the amended fallback theorem at a concrete data-bearing,
non-executable account with failed analysis. -/
theorem classify_data_nonexec_fallback_wallet_witness :
    classifyAccount (AccountSnapshot.mk false 7 [2]) none
      = Classified.wallet (((7 : Nat) : ℚ) / 1000000000) :=
  classify_data_nonexec_fallback_wallet (AccountSnapshot.mk false 7 [2])
    (by decide) rfl

/-- Helper: the bundling loop never returns `none` — the `i < len`
check precedes every index access. -/
theorem bundlingLoop_isSome (holders : List TokenHolder) (h0amt : Nat) :
    ∀ (left i : Nat) (acc : ℚ), (bundlingLoop holders h0amt left i acc).isSome = true := by
  intro left
  induction left with
  | zero => intro i acc; rfl
  | succ n ih =>
    intro i acc
    rw [bundlingLoop]
    by_cases hi : i < holders.length
    · rw [if_pos hi, List.getElem?_eq_getElem hi]
      exact ih (i + 1) _
    · rw [if_neg hi]
      rfl

/-- C8: with fewer than two holders the bundling score is exactly 0, and
for every holder-list length the computation of the score (which examines
up to 9 holders after the largest) never indexes out of bounds — the
fallible model never returns `none`. -/
theorem calculateBundlingScore_safe (holders : List TokenHolder) :
    (holders.length < 2 → calculateBundlingScore holders = some 0) ∧
    (calculateBundlingScore holders).isSome = true := by
  constructor
  · intro h
    simp [calculateBundlingScore, h]
  · rw [calculateBundlingScore]
    by_cases h : holders.length < 2
    · rw [if_pos h]; rfl
    · rw [if_neg h]
      have hlen : 0 < holders.length := by omega
      rw [List.getElem?_eq_getElem hlen]
      exact bundlingLoop_isSome holders _ 9 1 0

/-- C8 witness: the safety theorem at a concrete single-holder list. -/
theorem calculateBundlingScore_safe_witness :
    calculateBundlingScore [TokenHolder.mk ['h'] 7 (GoF.val 0)] = some 0 :=
  (calculateBundlingScore_safe [TokenHolder.mk ['h'] 7 (GoF.val 0)]).1 (by decide)

/-- C10: fixed-point rendering — `formatTokenAmount(1234500, 4)` is
"123.45", `formatTokenAmount(100, 0)` is "100", `formatTokenAmount(5, 6)`
is "0.000005", and for decimals = 0 the output is always the plain
comma-grouped integer. -/
theorem formatTokenAmount_spec :
    formatTokenAmount 1234500 4 = some "123.45".toList ∧
    formatTokenAmount 100 0 = some "100".toList ∧
    formatTokenAmount 5 6 = some "0.000005".toList ∧
    ∀ n : Nat, formatTokenAmount n 0 = some (formatNumber n) :=
  ⟨by decide, by decide, by decide, fun _ => rfl⟩

/-- Helper: everything the dedup loop emits was not yet seen. -/
theorem dedupFirstAux_not_mem_seen :
    ∀ (l seen : List (List Char)) (a : List Char),
      a ∈ dedupFirstAux seen l → a ∉ seen := by
  intro l
  induction l with
  | nil => intro seen a h; simp [dedupFirstAux] at h
  | cons b rest ih =>
    intro seen a h
    rw [dedupFirstAux] at h
    by_cases hb : b ∈ seen
    · rw [if_pos hb] at h
      exact ih seen a h
    · rw [if_neg hb] at h
      rcases List.mem_cons.mp h with rfl | htail
      · exact hb
      · intro ha
        exact ih (b :: seen) a htail (List.mem_cons_of_mem b ha)

/-- Helper: the dedup loop emits no duplicates. -/
theorem dedupFirstAux_nodup :
    ∀ (l seen : List (List Char)), (dedupFirstAux seen l).Nodup := by
  intro l
  induction l with
  | nil => intro seen; simp [dedupFirstAux]
  | cons b rest ih =>
    intro seen
    rw [dedupFirstAux]
    by_cases hb : b ∈ seen
    · rw [if_pos hb]; exact ih seen
    · rw [if_neg hb]
      refine List.Nodup.cons ?_ (ih (b :: seen))
      intro hmem
      exact dedupFirstAux_not_mem_seen rest (b :: seen) b hmem (List.mem_cons_self b seen)

/-- Helper: head index of a distinct element shifts by one. -/
theorem indexOf_cons_of_ne {c a : List Char} (rest' : List (List Char)) (h : c ≠ a) :
    (c :: rest').indexOf a = rest'.indexOf a + 1 := by
  simp only [List.indexOf, List.findIdx_cons]
  rw [show (c == a) = false from beq_eq_false_iff_ne.mpr h]
  rfl

/-- Helper: head index of the head element is zero. -/
theorem indexOf_cons_head (c : List Char) (rest' : List (List Char)) :
    (c :: rest').indexOf c = 0 := by
  simp only [List.indexOf, List.findIdx_cons]
  rw [beq_self_eq_true]
  rfl

/-- Helper: the dedup loop output is strictly ordered by the index of
each entry's first occurrence in the input list. -/
theorem dedupFirstAux_pairwise :
    ∀ (l seen : List (List Char)),
      (dedupFirstAux seen l).Pairwise
        (fun a b => l.indexOf a < l.indexOf b) := by
  intro l
  induction l with
  | nil => intro seen; simp [dedupFirstAux]
  | cons c rest ih =>
    intro seen
    rw [dedupFirstAux]
    by_cases hc : c ∈ seen
    · rw [if_pos hc]
      refine (ih seen).imp_of_mem ?_
      intro a b ha hb hrel
      have ha' : c ≠ a := fun he =>
        dedupFirstAux_not_mem_seen rest seen a ha (he ▸ hc)
      have hb' : c ≠ b := fun he =>
        dedupFirstAux_not_mem_seen rest seen b hb (he ▸ hc)
      rw [indexOf_cons_of_ne rest ha', indexOf_cons_of_ne rest hb']
      exact Nat.succ_lt_succ hrel
    · rw [if_neg hc]
      refine List.Pairwise.cons ?_ ?_
      · intro b hb
        have hb' : c ≠ b := fun he =>
          dedupFirstAux_not_mem_seen rest (c :: seen) b hb
            (he ▸ List.mem_cons_self c seen)
        rw [indexOf_cons_head, indexOf_cons_of_ne rest hb']
        exact Nat.succ_pos _
      · refine (ih (c :: seen)).imp_of_mem ?_
        intro a b ha hb hrel
        have ha' : c ≠ a := fun he =>
          dedupFirstAux_not_mem_seen rest (c :: seen) a ha
            (he ▸ List.mem_cons_self c seen)
        have hb' : c ≠ b := fun he =>
          dedupFirstAux_not_mem_seen rest (c :: seen) b hb
            (he ▸ List.mem_cons_self c seen)
        rw [indexOf_cons_of_ne rest ha', indexOf_cons_of_ne rest hb']
        exact Nat.succ_lt_succ hrel

/-- Helper: an address produced by the URL branch passed validation. -/
theorem urlExtract_go_valid (s : List Char) :
    ∀ (leads : List (List Char)) (a : List Char),
      urlExtract.go s leads = some a → validateSolanaAddress a = true := by
  intro leads
  induction leads with
  | nil => intro a h; simp [urlExtract.go] at h
  | cons pre rest ih =>
    intro a h
    rw [urlExtract.go] at h
    cases hf : findURLCapture pre s with
    | none => rw [hf] at h; exact ih a h
    | some c =>
      rw [hf] at h
      dsimp only at h
      by_cases hv : validateSolanaAddress c = true
      · rw [if_pos hv] at h
        cases h
        exact hv
      · rw [if_neg hv] at h
        exact ih a h

/-- C7: for every input text, the extraction pipeline of `messageCreate`
yields a list of addresses with no duplicate entries, each satisfying
the syntactic validity predicate (length in [32,44], base58 alphabet),
strictly ordered by the index of its first occurrence among the scanned
matches. -/
theorem extract_nodup_valid_ordered (s : List Char) :
    (extract s).Nodup ∧
    (∀ a ∈ extract s, validateSolanaAddress a = true) ∧
    (extract s).Pairwise
      (fun a b => (findAllMatches s).indexOf a < (findAllMatches s).indexOf b) := by
  rcases hu : urlExtract s with - | a
  · have he : extract s = (dedupFirst (findAllMatches s)).filter validateSolanaAddress := by
      rw [extract, hu]
    rw [he]
    refine ⟨(dedupFirstAux_nodup _ _).filter _, ?_, (dedupFirstAux_pairwise _ _).filter _⟩
    intro a ha
    exact (List.mem_filter.mp ha).2
  · have he : extract s = [a] := by rw [extract, hu]
    rw [he]
    refine ⟨by simp, ?_, by simp⟩
    intro b hb
    rw [List.mem_singleton] at hb
    subst hb
    rw [urlExtract] at hu
    exact urlExtract_go_valid s explorerLeads b hu

/-- C7 witness: the extraction theorem applied to a concrete message
containing one bare address. -/
theorem extract_nodup_valid_ordered_witness :
    validateSolanaAddress (List.replicate 32 'A') = true :=
  (extract_nodup_valid_ordered (List.replicate 32 'A')).2.1
    (List.replicate 32 'A') (by decide)

/-- C6 counterexample: a base58 run of 45 characters — longer than 44 —
yields exactly one candidate (the greedy 44-character match), not
candidates at more than one offset: `FindAllString` suppresses
overlapping matches. -/
theorem run45_single_candidate_cex :
    extract (List.replicate 45 '1') = [List.replicate 44 '1'] ∧
    (extract (List.replicate 45 '1')).length = 1 := by
  exact ⟨by decide, by decide⟩

/-- C6 amended: bare-text candidates are the successive non-overlapping
leftmost greedy matches, deduplicated by exact string equality: a run of
45–75 characters yields a single 44-character candidate; only once at
least 32 characters remain after the first match (run length ≥ 76) does
a second candidate at a later offset appear; separate non-overlapping
occurrences are matched independently, and textually equal ones are
deduplicated. -/
theorem scan_nonoverlap_spec :
    extract (List.replicate 75 '1') = [List.replicate 44 '1'] ∧
    extract (List.replicate 76 '1')
      = [List.replicate 44 '1', List.replicate 32 '1'] ∧
    extract (List.replicate 44 '2' ++ ' ' :: List.replicate 44 '3')
      = [List.replicate 44 '2', List.replicate 44 '3'] ∧
    extract (List.replicate 44 '2' ++ ' ' :: List.replicate 44 '2')
      = [List.replicate 44 '2'] := by
  exact ⟨by decide, by decide, by decide, by decide⟩

/-- Helper: the wrapping `uint64` accumulation equals the plain sum when
the plain sum fits in 64 bits. -/
theorem foldl_mod_eq_sum :
    ∀ (l : List TokenHolder) (t : Nat),
      t + (l.map TokenHolder.amount).sum < 2 ^ 64 →
      l.foldl (fun acc h => (acc + h.amount) % 2 ^ 64) t
        = t + (l.map TokenHolder.amount).sum := by
  intro l
  induction l with
  | nil => intro t _; simp
  | cons x xs ih =>
    intro t h
    simp only [List.map_cons, List.sum_cons] at h
    simp only [List.foldl_cons, List.map_cons, List.sum_cons]
    rw [Nat.mod_eq_of_lt (by omega), ih (t + x.amount) (by omega)]
    omega

/-- Helper: in the absence of 64-bit overflow the sampled total supply
is the sum of the parsed holder amounts. -/
theorem totalSupplyOf_eq_sum (entries : List RawHolder)
    (h : ((holdersOf entries).map TokenHolder.amount).sum < 2 ^ 64) :
    totalSupplyOf entries = ((holdersOf entries).map TokenHolder.amount).sum := by
  rw [totalSupplyOf]
  simpa using foldl_mod_eq_sum (holdersOf entries) 0 (by simpa using h)

/-- Helper: with a nonzero total, the percent fold is a finite float
equal to the rational sum of the individual percentages. -/
theorem percentFoldl_eq_val (t : Nat) (ht : ((t : ℚ)) ≠ 0) :
    ∀ (l : List TokenHolder) (q : ℚ),
      (withPercents l t).foldl (fun acc h => acc.add h.percent) (GoF.val q)
        = GoF.val (q + (l.map (fun h => (h.amount : ℚ) / (t : ℚ) * 100)).sum) := by
  intro l
  induction l with
  | nil => intro q; simp [withPercents]
  | cons x xs ih =>
    intro q
    simp only [withPercents, List.map_cons, List.foldl_cons, List.sum_cons] at ih ⊢
    rw [show goDivQ (x.amount : ℚ) (t : ℚ) = GoF.val ((x.amount : ℚ) / t) from
      by rw [goDivQ, if_neg ht]]
    show (withPercents xs t).foldl (fun acc h => acc.add h.percent)
        (GoF.val (q + (x.amount : ℚ) / t * 100)) = _
    rw [show (withPercents xs t) = xs.map (fun h =>
      { h with percent := (goDivQ (h.amount : ℚ) (t : ℚ)).mul100 }) from rfl]
    rw [ih (q + (x.amount : ℚ) / t * 100)]
    rw [add_assoc]

/-- C5 counterexample: for a holder list whose sampled total is 0 (one
holder with amount 0), every percent is NaN, so the percent sum is NaN
and in particular is not at most 100 — the claimed invariant fails for
this `TokenAnalysis` input. -/
theorem percentSum_zero_total_cex :
    percentSum (withPercents (holdersOf [RawHolder.mk ['b'] ['0']])
        (totalSupplyOf [RawHolder.mk ['b'] ['0']])) = GoF.nan ∧
    GoF.leC (percentSum (withPercents (holdersOf [RawHolder.mk ['b'] ['0']])
        (totalSupplyOf [RawHolder.mk ['b'] ['0']]))) 100 = false := by
  exact ⟨by decide, by decide⟩

/-- C5 amended: whenever the parsed amounts do not overflow 64 bits and
the sampled total supply is nonzero, every holder's percentage is
computed against the sampled total (amount / sample total × 100, never
any other total) and the percentages over the processed holder list sum
to exactly 100% of the sampled total — hence to at most 100%.  (With a
zero sampled total the percentages are NaN, and with 64-bit overflow the
total wraps, so both provisos are necessary.) -/
theorem percentSum_sample_total (entries : List RawHolder)
    (hof : ((holdersOf entries).map TokenHolder.amount).sum < 2 ^ 64)
    (hnz : totalSupplyOf entries ≠ 0) :
    (∀ h ∈ withPercents (holdersOf entries) (totalSupplyOf entries),
        h.percent = GoF.val ((h.amount : ℚ) / (totalSupplyOf entries : ℚ) * 100)) ∧
    percentSum (withPercents (holdersOf entries) (totalSupplyOf entries))
      = GoF.val 100 := by
  have htQ : ((totalSupplyOf entries : ℚ)) ≠ 0 := Nat.cast_ne_zero.mpr hnz
  constructor
  · intro h hmem
    rw [withPercents] at hmem
    rcases List.mem_map.mp hmem with ⟨h0, _hh0, rfl⟩
    show (goDivQ (h0.amount : ℚ) (totalSupplyOf entries : ℚ)).mul100 = _
    rw [goDivQ, if_neg htQ]
    rfl
  · rw [percentSum, percentFoldl_eq_val _ htQ, zero_add]
    congr 1
    have hmap : (holdersOf entries).map
          (fun h => (h.amount : ℚ) / (totalSupplyOf entries : ℚ) * 100)
        = (holdersOf entries).map
          (fun h => (h.amount : ℚ) * (100 / (totalSupplyOf entries : ℚ))) := by
      simp only [div_mul_eq_mul_div, mul_div_assoc]
    rw [hmap, List.sum_map_mul_right]
    have hcast : (holdersOf entries).map (fun h => ((h.amount : Nat) : ℚ))
        = ((holdersOf entries).map TokenHolder.amount).map (fun n : Nat => (n : ℚ)) := by
      rw [List.map_map]; rfl
    rw [hcast, ← Nat.cast_list_sum, ← totalSupplyOf_eq_sum entries hof]
    field_simp

/-- C5 witness: the amended percentage invariant at a concrete two-entry
holder list (amounts 100 and 300). -/
theorem percentSum_sample_total_witness :
    percentSum (withPercents
      (holdersOf [RawHolder.mk ['a'] ['1','0','0'], RawHolder.mk ['c'] ['3','0','0']])
      (totalSupplyOf [RawHolder.mk ['a'] ['1','0','0'], RawHolder.mk ['c'] ['3','0','0']]))
      = GoF.val 100 :=
  (percentSum_sample_total _ (by decide) (by decide)).2

/-- C9: on holder amounts [100, 100, 100] (sampled total 300) the
analysis computes every holder's percent as 100/3 % (= 33.333…%), the
insider percent over the top three holders as exactly 100%, and the
bundling score as 0.2 (ratios at sorted indices 1 and 2 are both 1.0,
strictly inside (0.8, 1.2), each contributing 0.1). -/
theorem analyze_equal_hundreds :
    (analyzeToken none
        [RawHolder.mk ['a'] ['1','0','0'], RawHolder.mk ['b'] ['1','0','0'],
         RawHolder.mk ['c'] ['1','0','0']]).map
      (fun A => (A.topHolders.map TokenHolder.percent, A.insiderPercent, A.bundlingScore))
    = some ([GoF.val (100 / 3), GoF.val (100 / 3), GoF.val (100 / 3)],
        GoF.val 100, 1 / 5) := by
  have h1 : holdersOf
      [RawHolder.mk ['a'] ['1','0','0'], RawHolder.mk ['b'] ['1','0','0'],
       RawHolder.mk ['c'] ['1','0','0']]
      = [TokenHolder.mk ['a'] 100 (GoF.val 0), TokenHolder.mk ['b'] 100 (GoF.val 0),
         TokenHolder.mk ['c'] 100 (GoF.val 0)] := by decide
  have h2 : totalSupplyOf
      [RawHolder.mk ['a'] ['1','0','0'], RawHolder.mk ['b'] ['1','0','0'],
       RawHolder.mk ['c'] ['1','0','0']] = 300 := by decide
  have h3 : withPercents
      [TokenHolder.mk ['a'] 100 (GoF.val 0), TokenHolder.mk ['b'] 100 (GoF.val 0),
       TokenHolder.mk ['c'] 100 (GoF.val 0)] 300
      = [TokenHolder.mk ['a'] 100 (GoF.val (100/3)), TokenHolder.mk ['b'] 100 (GoF.val (100/3)),
         TokenHolder.mk ['c'] 100 (GoF.val (100/3))] := by
    norm_num [withPercents, goDivQ, GoF.mul100]
  have h4 : sortHoldersDesc
      [TokenHolder.mk ['a'] 100 (GoF.val (100/3)), TokenHolder.mk ['b'] 100 (GoF.val (100/3)),
       TokenHolder.mk ['c'] 100 (GoF.val (100/3))]
      = [TokenHolder.mk ['a'] 100 (GoF.val (100/3)), TokenHolder.mk ['b'] 100 (GoF.val (100/3)),
         TokenHolder.mk ['c'] 100 (GoF.val (100/3))] := by
    norm_num [sortHoldersDesc, insertDesc]
  have h5 : insiderPercentOf
      [TokenHolder.mk ['a'] 100 (GoF.val (100/3)), TokenHolder.mk ['b'] 100 (GoF.val (100/3)),
       TokenHolder.mk ['c'] 100 (GoF.val (100/3))] = GoF.val 100 := by
    norm_num [insiderPercentOf, GoF.add]
  have h6 : calculateBundlingScore
      [TokenHolder.mk ['a'] 100 (GoF.val (100/3)), TokenHolder.mk ['b'] 100 (GoF.val (100/3)),
       TokenHolder.mk ['c'] 100 (GoF.val (100/3))] = some (1/5) := by
    norm_num [calculateBundlingScore, bundlingLoop, goDivQ, GoF.gtC, GoF.ltC]
  rw [analyzeToken]
  dsimp only
  rw [h2, h1, h3, h4, h5, h6]
  dsimp only [decimalsOf]
  norm_num

end Cryptobot
